import Mathlib

/-
Verification of the MSS-AUTOMATION repository core logic.

Strings of the Python source are modelled as `List Char`, raw byte data as
`List Nat` (one entry per byte, each < 256).  Each definition below is a
shallow embedding of the function of the same name in the repository.
-/

/-! ## Backspace normalizer (src/utils/text_processing.py, process_backspaces)

The Python function keeps a list `result`, appends every ordinary character,
and pops the last element on a backspace (only when the list is non-empty).
The embedding keeps the buffer reversed (most recent character first), so the
pop of the last appended character is removal of the head; the final
`''.join(result)` corresponds to the closing `List.reverse`. -/

def processBackspacesAux : List Char → List Char → List Char
  | result, [] => result.reverse
  | result, c :: rest =>
    if c = '\x08' then
      processBackspacesAux result.tail rest
    else
      processBackspacesAux (c :: result) rest

/-- Embedding of `process_backspaces` from src/utils/text_processing.py. -/
def processBackspaces (output : List Char) : List Char :=
  processBackspacesAux [] output

/-- Modelled from the spec (section 4.2, Backspace Normalizer): scan left to
right with an output buffer; an ordinary character is appended; a backspace
removes the most recently appended character when the buffer is non-empty and
otherwise does nothing. -/
def normalizeSpec (s : List Char) : List Char :=
  s.foldl (fun buf c => if c = '\x08' then buf.dropLast else buf ++ [c]) []

lemma processBackspacesAux_eq_foldl (s : List Char) :
    ∀ result : List Char,
      processBackspacesAux result s =
        s.foldl (fun buf c => if c = '\x08' then buf.dropLast else buf ++ [c])
          result.reverse := by
  induction s with
  | nil => intro result; rfl
  | cons c rest ih =>
    intro result
    by_cases hc : c = '\x08'
    · subst hc
      rw [processBackspacesAux, if_pos rfl, ih result.tail]
      cases result with
      | nil => simp [List.foldl_cons]
      | cons x t => simp [List.foldl_cons, List.dropLast_concat]
    · rw [processBackspacesAux, if_neg hc, ih (c :: result)]
      simp [List.foldl_cons, hc]

lemma processBackspaces_eq_normalizeSpec (s : List Char) :
    processBackspaces s = normalizeSpec s := by
  unfold processBackspaces normalizeSpec
  simpa using processBackspacesAux_eq_foldl s []

lemma processBackspacesAux_of_no_backspace {s : List Char}
    (h : ∀ c ∈ s, c ≠ '\x08') (result : List Char) :
    processBackspacesAux result s = result.reverse ++ s := by
  induction s generalizing result with
  | nil => simp [processBackspacesAux]
  | cons c rest ih =>
    have hc : c ≠ '\x08' := h c (List.mem_cons_self c rest)
    have hrest : ∀ x ∈ rest, x ≠ '\x08' := fun x hx => h x (List.mem_cons_of_mem c hx)
    rw [processBackspacesAux, if_neg hc, ih hrest]
    simp

lemma mem_processBackspacesAux {c : Char} {s result : List Char}
    (h : c ∈ processBackspacesAux result s) :
    c ∈ result ∨ (c ∈ s ∧ c ≠ '\x08') := by
  induction s generalizing result with
  | nil =>
    left
    simpa [processBackspacesAux] using h
  | cons a rest ih =>
    by_cases ha : a = '\x08'
    · subst ha
      rw [processBackspacesAux, if_pos rfl] at h
      rcases ih h with h1 | h2
      · exact Or.inl (List.mem_of_mem_tail h1)
      · exact Or.inr ⟨List.mem_cons_of_mem _ h2.1, h2.2⟩
    · rw [processBackspacesAux, if_neg ha] at h
      rcases ih h with h1 | h2
      · rcases List.mem_cons.mp h1 with h3 | h4
        · subst h3; exact Or.inr ⟨List.mem_cons_self _ _, ha⟩
        · exact Or.inl h4
      · exact Or.inr ⟨List.mem_cons_of_mem _ h2.1, h2.2⟩

lemma no_backspace_in_processBackspaces (s : List Char) :
    ∀ c ∈ processBackspaces s, c ≠ '\x08' := by
  intro c hc
  rcases mem_processBackspacesAux hc with h1 | h2
  · exact absurd h1 (List.not_mem_nil c)
  · exact h2.2

/-- C1: `process_backspaces` scans its input left to right with an output
buffer, appending ordinary characters and removing the most recently appended
character on a backspace only when the buffer is non-empty (so a backspace on
an empty buffer is a no-op); the function agrees with the buffer-scan
specification on every input, and the three spec examples hold:
`process_backspaces("AB\x08C") = "AC"`, `process_backspaces("\x08A") = "A"`,
`process_backspaces("") = ""`. -/
theorem processBackspaces_correct :
    (∀ s : List Char, processBackspaces s = normalizeSpec s) ∧
    processBackspaces ("AB\x08C".toList) = "AC".toList ∧
    processBackspaces ("\x08A".toList) = "A".toList ∧
    processBackspaces ([] : List Char) = [] := by
  refine ⟨processBackspaces_eq_normalizeSpec, ?_, ?_, ?_⟩ <;> decide

/-- C4: `process_backspaces` is idempotent on every string, and is the
identity on every string containing no backspace character. -/
theorem processBackspaces_idempotent (s : List Char) :
    processBackspaces (processBackspaces s) = processBackspaces s ∧
    ((∀ c ∈ s, c ≠ '\x08') → processBackspaces s = s) := by
  constructor
  · have hno := no_backspace_in_processBackspaces s
    unfold processBackspaces
    simpa using processBackspacesAux_of_no_backspace hno []
  · intro h
    unfold processBackspaces
    simpa using processBackspacesAux_of_no_backspace h []

/-- C4 witness: the theorem applied to the concrete backspace-free string
"ABC" yields both idempotence and the fixed-point equation there. -/
theorem processBackspaces_idempotent_witness :
    processBackspaces (processBackspaces ("ABC".toList)) =
      processBackspaces ("ABC".toList) ∧
    processBackspaces ("ABC".toList) = "ABC".toList :=
  ⟨(processBackspaces_idempotent ("ABC".toList)).1,
   (processBackspaces_idempotent ("ABC".toList)).2 (by decide)⟩

/-! ## Substring matching

Python's `pattern in text` test on strings is substring containment; the
embedding below is a direct left-to-right scan. -/

def listStartsWith : List Char → List Char → Bool
  | _, [] => true
  | [], _ :: _ => false
  | c :: cs, p :: ps => p == c && listStartsWith cs ps

/-- Boolean test that `pat` occurs as a contiguous substring of `hay`,
embedding Python's `pat in hay` on strings. -/
def containsPattern : List Char → List Char → Bool
  | hay, pat =>
    if listStartsWith hay pat then true
    else
      match hay with
      | [] => false
      | _ :: rest => containsPattern rest pat

/-! ## Pattern classifier
(src/subscriber_management/subscriber_checker.py, _analyze_output, and
src/configs/config.py detection pattern lists).

Python's `str.upper()` is modelled by `Char.toUpper` character-wise; all
patterns involved are pure ASCII, where the two agree. -/

def SUBSCRIBER_NOT_FOUND_PATTERNS : List (List Char) :=
  ["UNKNOWN SUBSCRIBER".toList, "DX ERROR".toList,
   "COMMAND EXECUTION FAILED".toList]

def SUBSCRIBER_FOUND_PATTERNS : List (List Char) :=
  ["SUBSCRIBER INFORMATION".toList, "MOBILE COUNTRY CODE".toList]

/-- Identity of the three return sites of `_analyze_output`: the definitive
not-found return, the found return, and the fall-through return that logs a
warning before returning not-found. -/
inductive AnalysisOutcome
  | definitiveNotFound
  | foundPresent
  | ambiguousNotFound
deriving DecidableEq

/-- Branch-level embedding of `_analyze_output` from
src/subscriber_management/subscriber_checker.py: uppercase once, check the
"not found" patterns first, then the "found" patterns, and otherwise fall
through to the warning branch. -/
def analyzeOutcome (output_text : List Char) : AnalysisOutcome :=
  let upper_output := output_text.map Char.toUpper
  if SUBSCRIBER_NOT_FOUND_PATTERNS.any (fun p => containsPattern upper_output p) then
    .definitiveNotFound
  else if SUBSCRIBER_FOUND_PATTERNS.any (fun p => containsPattern upper_output p) then
    .foundPresent
  else
    .ambiguousNotFound

/-- Boolean returned by `_analyze_output` (True on the found branch only). -/
def analyzeOutput (output_text : List Char) : Bool :=
  match analyzeOutcome output_text with
  | .foundPresent => true
  | _ => false

/-- C2: the classifier uppercases the text once and returns the definitive
NOT FOUND outcome when any "not found" pattern is a substring, otherwise the
FOUND outcome when any "found" pattern is a substring, otherwise an
ambiguous NOT FOUND outcome that is a distinct value from the definitive one;
the absent-pattern check precedes the present-pattern check, so any text
containing "UNKNOWN SUBSCRIBER" is classified NOT FOUND even when it also
contains "SUBSCRIBER INFORMATION". -/
theorem analyzeOutput_correct :
    (∀ t : List Char,
      (SUBSCRIBER_NOT_FOUND_PATTERNS.any
          (fun p => containsPattern (t.map Char.toUpper) p) = true →
        analyzeOutcome t = .definitiveNotFound ∧ analyzeOutput t = false) ∧
      (SUBSCRIBER_NOT_FOUND_PATTERNS.any
          (fun p => containsPattern (t.map Char.toUpper) p) = false →
        SUBSCRIBER_FOUND_PATTERNS.any
          (fun p => containsPattern (t.map Char.toUpper) p) = true →
        analyzeOutcome t = .foundPresent ∧ analyzeOutput t = true) ∧
      (SUBSCRIBER_NOT_FOUND_PATTERNS.any
          (fun p => containsPattern (t.map Char.toUpper) p) = false →
        SUBSCRIBER_FOUND_PATTERNS.any
          (fun p => containsPattern (t.map Char.toUpper) p) = false →
        analyzeOutcome t = .ambiguousNotFound ∧ analyzeOutput t = false) ∧
      (containsPattern (t.map Char.toUpper) ("UNKNOWN SUBSCRIBER".toList) = true →
        analyzeOutcome t = .definitiveNotFound ∧ analyzeOutput t = false)) ∧
    AnalysisOutcome.ambiguousNotFound ≠ AnalysisOutcome.definitiveNotFound := by
  refine ⟨fun t => ⟨?_, ?_, ?_, ?_⟩, by decide⟩
  · intro h
    constructor
    · simp [analyzeOutcome, h]
    · simp [analyzeOutput, analyzeOutcome, h]
  · intro h1 h2
    constructor
    · simp only [analyzeOutcome, h1, h2]
      rfl
    · simp only [analyzeOutput, analyzeOutcome, h1, h2]
      rfl
  · intro h1 h2
    constructor
    · simp only [analyzeOutcome, h1, h2]
      rfl
    · simp only [analyzeOutput, analyzeOutcome, h1, h2]
      rfl
  · intro h
    have hany : SUBSCRIBER_NOT_FOUND_PATTERNS.any
        (fun p => containsPattern (t.map Char.toUpper) p) = true := by
      simp only [SUBSCRIBER_NOT_FOUND_PATTERNS, List.any_cons, h, Bool.true_or]
    constructor
    · simp [analyzeOutcome, hany]
    · simp [analyzeOutput, analyzeOutcome, hany]

/-- C2 witness: the theorem applied to a concrete text containing both
"UNKNOWN SUBSCRIBER" and "SUBSCRIBER INFORMATION" yields the definitive
NOT FOUND classification there. -/
theorem analyzeOutput_correct_witness :
    analyzeOutcome ("UNKNOWN SUBSCRIBER and SUBSCRIBER INFORMATION".toList) =
      AnalysisOutcome.definitiveNotFound ∧
    analyzeOutput ("UNKNOWN SUBSCRIBER and SUBSCRIBER INFORMATION".toList) = false :=
  ((analyzeOutput_correct.1
      ("UNKNOWN SUBSCRIBER and SUBSCRIBER INFORMATION".toList)).2.2.2 (by decide))

/-! ## UTF-8 decoding with errors ignored

Embedding of Python's `bytes.decode('utf-8', errors='ignore')` as used in
`_read_channel_output` and `stream_channel_output`: well-formed sequences are
decoded, ill-formed bytes are silently skipped (the maximal valid subpart of a
truncated sequence is skipped together with its lead byte), and the function
is total — it can never fail.  The fuel argument is the list length; every
step consumes at least one byte, so the fuel never runs out. -/

def isUtf8Cont (b : Nat) : Bool := 0x80 ≤ b && b ≤ 0xBF

def utf8DecodeIgnoreAux : Nat → List Nat → List Char
  | 0, _ => []
  | _ + 1, [] => []
  | fuel + 1, b :: rest =>
    if b < 0x80 then
      Char.ofNat b :: utf8DecodeIgnoreAux fuel rest
    else if 0xC2 ≤ b && b ≤ 0xDF then
      match rest with
      | b2 :: rest2 =>
        if isUtf8Cont b2 then
          Char.ofNat ((b - 0xC0) * 0x40 + (b2 - 0x80)) ::
            utf8DecodeIgnoreAux fuel rest2
        else utf8DecodeIgnoreAux fuel rest
      | [] => []
    else if 0xE0 ≤ b && b ≤ 0xEF then
      match rest with
      | b2 :: rest2 =>
        if (if b = 0xE0 then decide (0xA0 ≤ b2) && decide (b2 ≤ 0xBF)
            else if b = 0xED then decide (0x80 ≤ b2) && decide (b2 ≤ 0x9F)
            else isUtf8Cont b2) then
          match rest2 with
          | b3 :: rest3 =>
            if isUtf8Cont b3 then
              Char.ofNat ((b - 0xE0) * 0x1000 + (b2 - 0x80) * 0x40 + (b3 - 0x80)) ::
                utf8DecodeIgnoreAux fuel rest3
            else utf8DecodeIgnoreAux fuel rest2
          | [] => []
        else utf8DecodeIgnoreAux fuel rest
      | [] => []
    else if 0xF0 ≤ b && b ≤ 0xF4 then
      match rest with
      | b2 :: rest2 =>
        if (if b = 0xF0 then decide (0x90 ≤ b2) && decide (b2 ≤ 0xBF)
            else if b = 0xF4 then decide (0x80 ≤ b2) && decide (b2 ≤ 0x8F)
            else isUtf8Cont b2) then
          match rest2 with
          | b3 :: rest3 =>
            if isUtf8Cont b3 then
              match rest3 with
              | b4 :: rest4 =>
                if isUtf8Cont b4 then
                  Char.ofNat ((b - 0xF0) * 0x40000 + (b2 - 0x80) * 0x1000 +
                      (b3 - 0x80) * 0x40 + (b4 - 0x80)) ::
                    utf8DecodeIgnoreAux fuel rest4
                else utf8DecodeIgnoreAux fuel rest3
              | [] => []
            else utf8DecodeIgnoreAux fuel rest2
          | [] => []
        else utf8DecodeIgnoreAux fuel rest
      | [] => []
    else
      utf8DecodeIgnoreAux fuel rest

/-- Total decoder for Python's `.decode('utf-8', errors='ignore')`. -/
def utf8DecodeIgnore (bs : List Nat) : List Char :=
  utf8DecodeIgnoreAux bs.length bs

/-! ## Channel drain loop
(src/subscriber_management/mml_client.py, _read_channel_output, and
src/main.py, stream_channel_output — the two loops are textually identical).

One poll iteration of the Python loop is one `ChanEvent`: either
`recv bs` (recv_ready was true and `chan.recv(4096)` returned the bytes `bs`,
possibly none when the channel is closed), `sockTimeout` (the recv raised
`socket.timeout`), or `notReady` (recv_ready was false, so the loop slept for
the fixed 100ms poll interval).  Time is measured in poll intervals of 100ms:
`idle` counts intervals since the last byte and the timeout `T` is the
`timeout` argument expressed in the same 100ms units (READ_TIMEOUT of 6.0s is
`T = 60`).  A finite trace means the channel is never ready after its end, so
the loop then idles until `idle` exceeds `T` and returns its accumulator. -/

inductive ChanEvent
  | recv (bs : List Nat)
  | sockTimeout
  | notReady
deriving DecidableEq

/-- Decoded text contributed by one poll event. -/
def chunkText : ChanEvent → List Char
  | ChanEvent.recv bs => utf8DecodeIgnore bs
  | ChanEvent.sockTimeout => []
  | ChanEvent.notReady => []

/-- Embedding of the drain loop shared by `_read_channel_output` and
`stream_channel_output`.  The `if utf8DecodeIgnore bs = []` test is Python's
`if not data: break` (the decoded string, not the raw bytes, is tested), and
the final `T < idle + 1` test is `time.time() - start > timeout` evaluated in
100ms units after the 100ms sleep. -/
def readLoop (T : Nat) : List ChanEvent → Nat → List Char → List Char
  | [], _, acc => acc
  | ChanEvent.sockTimeout :: _, _, acc => acc
  | ChanEvent.recv bs :: rest, _, acc =>
    if utf8DecodeIgnore bs = [] then acc
    else readLoop T rest 0 (acc ++ utf8DecodeIgnore bs)
  | ChanEvent.notReady :: rest, idle, acc =>
    if T < idle + 1 then acc else readLoop T rest (idle + 1) acc

/-- Embedding of `stream_channel_output` (src/main.py): the loop result is
returned as-is, `"".join(output)`. -/
def streamChannelOutput (T : Nat) (evs : List ChanEvent) : List Char :=
  readLoop T evs 0 []

/-- Embedding of `MMLClient._read_channel_output`: the joined loop result is
passed through `process_backspaces` before being returned. -/
def readChannelOutput (T : Nat) (evs : List ChanEvent) : List Char :=
  processBackspaces (readLoop T evs 0 [])

/-- Step-indexed version of the drain loop, used to state termination: `none`
means the loop was still running when the fuel ran out. -/
def readLoopFuel (T : Nat) : Nat → List ChanEvent → Nat → List Char → Option (List Char)
  | 0, _, _, _ => none
  | fuel + 1, [], idle, acc =>
    if T < idle + 1 then some acc else readLoopFuel T fuel [] (idle + 1) acc
  | _ + 1, ChanEvent.sockTimeout :: _, _, acc => some acc
  | fuel + 1, ChanEvent.recv bs :: rest, _, acc =>
    if utf8DecodeIgnore bs = [] then some acc
    else readLoopFuel T fuel rest 0 (acc ++ utf8DecodeIgnore bs)
  | fuel + 1, ChanEvent.notReady :: rest, idle, acc =>
    if T < idle + 1 then some acc else readLoopFuel T fuel rest (idle + 1) acc

lemma readLoop_concat (T : Nat) :
    ∀ (evs : List ChanEvent) (idle : Nat) (acc : List Char),
      ∃ pre post, evs = pre ++ post ∧
        readLoop T evs idle acc = acc ++ (pre.map chunkText).flatten := by
  intro evs
  induction evs with
  | nil => intro idle acc; exact ⟨[], [], rfl, by simp [readLoop]⟩
  | cons ev rest ih =>
    intro idle acc
    cases ev with
    | sockTimeout =>
      exact ⟨[], ChanEvent.sockTimeout :: rest, rfl, by simp [readLoop]⟩
    | recv bs =>
      by_cases hd : utf8DecodeIgnore bs = []
      · refine ⟨[ChanEvent.recv bs], rest, rfl, ?_⟩
        simp [readLoop, hd, chunkText]
      · obtain ⟨pre, post, hsplit, hres⟩ := ih 0 (acc ++ utf8DecodeIgnore bs)
        refine ⟨ChanEvent.recv bs :: pre, post, by simp [hsplit], ?_⟩
        simp [readLoop, hd, hres, chunkText]
    | notReady =>
      by_cases hidle : T < idle + 1
      · exact ⟨[], ChanEvent.notReady :: rest, rfl, by simp [readLoop, hidle]⟩
      · obtain ⟨pre, post, hsplit, hres⟩ := ih (idle + 1) acc
        refine ⟨ChanEvent.notReady :: pre, post, by simp [hsplit], ?_⟩
        simp [readLoop, hidle, hres, chunkText]

lemma readLoopFuel_nil (T : Nat) :
    ∀ (fuel idle : Nat) (acc : List Char), T - idle < fuel →
      readLoopFuel T fuel [] idle acc = some acc := by
  intro fuel
  induction fuel with
  | zero => intro idle acc h; omega
  | succ f ihf =>
    intro idle acc h
    by_cases hT : T < idle + 1
    · simp [readLoopFuel, hT]
    · have hf : T - (idle + 1) < f := by omega
      simp [readLoopFuel, hT, ihf (idle + 1) acc hf]

lemma readLoopFuel_spec (T : Nat) :
    ∀ (evs : List ChanEvent) (fuel idle : Nat) (acc : List Char),
      evs.length + T + 1 ≤ fuel →
      readLoopFuel T fuel evs idle acc = some (readLoop T evs idle acc) := by
  intro evs
  induction evs with
  | nil =>
    intro fuel idle acc h
    have h2 : T - idle < fuel := by omega
    rw [readLoopFuel_nil T fuel idle acc h2]
    rfl
  | cons ev rest ih =>
    intro fuel idle acc h
    cases fuel with
    | zero => omega
    | succ f =>
      have hf : rest.length + T + 1 ≤ f := by
        simp [List.length_cons] at h; omega
      cases ev with
      | sockTimeout => rfl
      | recv bs =>
        by_cases hd : utf8DecodeIgnore bs = []
        · simp [readLoopFuel, readLoop, hd]
        · simp [readLoopFuel, readLoop, hd, ih f 0 (acc ++ utf8DecodeIgnore bs) hf]
      | notReady =>
        by_cases hT : T < idle + 1
        · simp [readLoopFuel, readLoop, hT]
        · simp [readLoopFuel, readLoop, hT, ih f (idle + 1) acc hf]

lemma readLoop_replicate_notReady (T : Nat) :
    ∀ (n idle : Nat) (acc : List Char),
      readLoop T (List.replicate n ChanEvent.notReady) idle acc = acc := by
  intro n
  induction n with
  | zero => intro idle acc; simp [readLoop]
  | succ m ih =>
    intro idle acc
    by_cases hT : T < idle + 1 <;>
      simp [List.replicate_succ, readLoop, hT, ih]

/-- C3 counterexample: the drain does not append-and-continue on every read
that yields one or more bytes.  Python's `if not data: break` tests the
decoded string, so a read of one byte 0x80 — whose decoded text under
errors='ignore' is empty — terminates the loop: on the trace
[recv [0x80], recv [0x41]] the program returns "" although the concatenation
of the decoded text of all the trace's reads is "A", which is non-empty. -/
theorem streamChannelOutput_counterexample :
    streamChannelOutput 60 [ChanEvent.recv [128], ChanEvent.recv [65]] = [] ∧
    (([ChanEvent.recv [128], ChanEvent.recv [65]].map chunkText).flatten =
      "A".toList) ∧
    ("A".toList : List Char) ≠ [] := by
  refine ⟨by decide, by decide, by decide⟩

/-- C3 as amended: the drain loop resets the idle counter to zero and appends
the data whenever a read yields bytes with non-empty decoded text, sleeps one
poll interval and increments the idle counter when no bytes are available,
returns the concatenation of the decoded chunks of the consumed part of the
trace, terminates within a fuel bound of trace length plus T + 1 iterations,
returns the empty string on a channel that never yields bytes, and ends the
drain with the accumulated text on a read whose bytes decode to the empty
string (the code's `if not data: break` tests the decoded string). -/
theorem drainLoop_correct :
    (∀ (T : Nat) (bs : List Nat) (rest : List ChanEvent) (idle : Nat) (acc : List Char),
        utf8DecodeIgnore bs ≠ [] →
        readLoop T (ChanEvent.recv bs :: rest) idle acc =
          readLoop T rest 0 (acc ++ utf8DecodeIgnore bs)) ∧
    (∀ (T : Nat) (rest : List ChanEvent) (idle : Nat) (acc : List Char),
        readLoop T (ChanEvent.notReady :: rest) idle acc =
          if T < idle + 1 then acc else readLoop T rest (idle + 1) acc) ∧
    (∀ (T : Nat) (evs : List ChanEvent),
        ∃ pre post, evs = pre ++ post ∧
          streamChannelOutput T evs = (pre.map chunkText).flatten) ∧
    (∀ (T : Nat) (evs : List ChanEvent),
        readLoopFuel T (evs.length + T + 1) evs 0 [] =
          some (streamChannelOutput T evs)) ∧
    (∀ (T n : Nat), streamChannelOutput T (List.replicate n ChanEvent.notReady) = []) ∧
    (∀ (T : Nat) (bs : List Nat) (rest : List ChanEvent) (idle : Nat) (acc : List Char),
        utf8DecodeIgnore bs = [] →
        readLoop T (ChanEvent.recv bs :: rest) idle acc = acc) := by
  refine ⟨?_, ?_, ?_, ?_, ?_, ?_⟩
  · intro T bs rest idle acc hd
    simp [readLoop, hd]
  · intro T rest idle acc
    rfl
  · intro T evs
    obtain ⟨pre, post, hsplit, hres⟩ := readLoop_concat T evs 0 []
    exact ⟨pre, post, hsplit, by simpa [streamChannelOutput] using hres⟩
  · intro T evs
    exact readLoopFuel_spec T evs (evs.length + T + 1) 0 [] (by omega)
  · intro T n
    exact readLoop_replicate_notReady T n 0 []
  · intro T bs rest idle acc hd
    simp [readLoop, hd]

/-- C3 witness: the theorem applied at T = 60 to a single read returning the
byte 0x41 yields the accumulated text "A", and applied to a read of the
single byte 0x80 (empty decoded text) ends the drain with the accumulated
text unchanged. -/
theorem drainLoop_correct_witness :
    readLoop 60 [ChanEvent.recv [65]] 0 [] = "A".toList ∧
    readLoop 60 [ChanEvent.recv [128], ChanEvent.recv [65]] 0 [] = [] := by
  constructor
  · have h := drainLoop_correct.1 60 [65] [] 0 [] (by decide)
    rw [h]
    decide
  · exact drainLoop_correct.2.2.2.2.2 60 [128] [ChanEvent.recv [65]] 0 [] (by decide)

/-- C5: the drain never propagates a transport error: a `socket.timeout`
raised during a receive ends the loop and yields the text accumulated so far,
a receive whose bytes decode to the empty string (a closed channel, or a
chunk of entirely ill-formed bytes) likewise ends the loop with the
accumulated text, and ill-formed bytes are silently dropped by the total
decoder rather than raising (0xFF is skipped before 'A'; a 0xC3 lead with an
invalid continuation is skipped and the following byte kept). -/
theorem drain_never_raises :
    (∀ (T : Nat) (rest : List ChanEvent) (idle : Nat) (acc : List Char),
        readLoop T (ChanEvent.sockTimeout :: rest) idle acc = acc) ∧
    (∀ (T : Nat) (bs : List Nat) (rest : List ChanEvent) (idle : Nat) (acc : List Char),
        utf8DecodeIgnore bs = [] →
        readLoop T (ChanEvent.recv bs :: rest) idle acc = acc) ∧
    (∀ (T : Nat) (bs : List Nat) (rest : List ChanEvent),
        utf8DecodeIgnore bs ≠ [] →
        readChannelOutput T (ChanEvent.recv bs :: ChanEvent.sockTimeout :: rest) =
          processBackspaces (utf8DecodeIgnore bs)) ∧
    utf8DecodeIgnore [0xFF, 0x41] = ['A'] ∧
    utf8DecodeIgnore [0xC3, 0x28] = ['('] := by
  refine ⟨?_, ?_, ?_, by decide, by decide⟩
  · intro T rest idle acc
    rfl
  · intro T bs rest idle acc hd
    simp [readLoop, hd]
  · intro T bs rest hd
    simp [readChannelOutput, readLoop, hd]

/-- C5 witness: the theorem applied to a read of only the ill-formed byte
0x80 (which decodes to the empty string) ends the drain with the accumulated
text unchanged, and applied to a read of "A" followed by a transport timeout
returns "A". -/
theorem drain_never_raises_witness :
    readLoop 60 [ChanEvent.recv [128]] 3 ("X".toList) = "X".toList ∧
    readChannelOutput 60 [ChanEvent.recv [65], ChanEvent.sockTimeout] = "A".toList := by
  constructor
  · exact drain_never_raises.2.1 60 [128] [] 3 ("X".toList) (by decide)
  · rw [drain_never_raises.2.2.1 60 [65] [] (by decide)]
    decide

/-! ## Command sequence execution
(src/subscriber_management/mml_client.py, execute_commands).

The channel is abstracted positionally: the script is the list of
(command, returned chunk) pairs that executing each command in order would
produce; `executeCommands` consumes it exactly as the Python loop does,
appending the entry for each command and then testing the just-returned chunk
for the two early-termination markers. -/

def hasErrorMarker (output : List Char) : Bool :=
  let upper_output := output.map Char.toUpper
  containsPattern upper_output ("UNKNOWN SUBSCRIBER".toList) ||
    containsPattern upper_output ("DX ERROR".toList)

/-- Embedding of `MMLClient.execute_commands`: returns the accumulated
(command, output) entries and the `found_error` flag. -/
def executeCommands (stop_on_error : Bool) :
    List (List Char × List Char) → List (List Char × List Char) × Bool
  | [] => ([], false)
  | (cmd, output) :: rest =>
    if stop_on_error && hasErrorMarker output then ([(cmd, output)], true)
    else ((cmd, output) :: (executeCommands stop_on_error rest).1,
          (executeCommands stop_on_error rest).2)

/-- Boolean test that the first list is a leading segment (an in-order
initial run) of the second. -/
def leadsList {α : Type} [DecidableEq α] : List α → List α → Bool
  | [], _ => true
  | _ :: _, [] => false
  | a :: as, b :: bs => decide (a = b) && leadsList as bs

lemma executeCommands_leads (script : List (List Char × List Char)) :
    leadsList (executeCommands true script).1 script = true := by
  induction script with
  | nil => rfl
  | cons p rest ih =>
    obtain ⟨cmd, output⟩ := p
    by_cases h : hasErrorMarker output
    · simp [executeCommands, h, leadsList]
    · simp [executeCommands, h, leadsList, ih]

lemma executeCommands_clean_before_last :
    ∀ (script pre post : List (List Char × List Char)) (mid : List Char × List Char),
      (executeCommands true script).1 = pre ++ mid :: post → post ≠ [] →
      hasErrorMarker mid.2 = false := by
  intro script
  induction script with
  | nil =>
    intro pre post mid h hpost
    simp [executeCommands] at h
  | cons p rest ih =>
    intro pre post mid h hpost
    obtain ⟨cmd, output⟩ := p
    by_cases herr : hasErrorMarker output
    · have hc : ((true && hasErrorMarker output) = true) := by simp [herr]
      rw [executeCommands, if_pos hc] at h
      have hl := congrArg List.length h
      simp [List.length_append] at hl
      have hp : 0 < post.length := List.length_pos.mpr hpost
      omega
    · have hc : ¬((true && hasErrorMarker output) = true) := by simp [herr]
      rw [executeCommands, if_neg hc] at h
      dsimp only at h
      cases pre with
      | nil =>
        rw [List.nil_append] at h
        injection h with h1 h2
        rw [← h1]
        simpa using herr
      | cons x ps =>
        rw [List.cons_append] at h
        injection h with h1 h2
        exact ih ps post mid h2 hpost

lemma executeCommands_truncates :
    ∀ (pre post script : List (List Char × List Char)) (p : List Char × List Char),
      script = pre ++ p :: post → hasErrorMarker p.2 = true →
      (executeCommands true script).1.length ≤ pre.length + 1 := by
  intro pre
  induction pre with
  | nil =>
    intro post script p hs herr
    subst hs
    obtain ⟨cmd, output⟩ := p
    simp at herr
    simp [executeCommands, herr]
  | cons x ps ih =>
    intro post script p hs herr
    subst hs
    obtain ⟨xc, xo⟩ := x
    by_cases hx : hasErrorMarker xo
    · simp [executeCommands, hx]
    · have := ih post (ps ++ p :: post) p rfl herr
      simp [executeCommands, hx]
      omega

/-- C6: with stop_on_error enabled, the entries returned by
`execute_commands` form a leading segment of the command script, every entry
before the last returned one is free of the two error markers (so once a
chunk with a marker is returned no later command of the sequence is sent),
whenever the chunk returned at some position carries a marker at most that
many commands are issued, and the marker test inspects only the just-returned
chunk: a marker split across two consecutive chunks — whose concatenation
does contain "DX ERROR" — does not stop the sequence. -/
theorem executeCommands_early_stop :
    (∀ script : List (List Char × List Char),
        leadsList (executeCommands true script).1 script = true) ∧
    (∀ (script pre post : List (List Char × List Char)) (mid : List Char × List Char),
        (executeCommands true script).1 = pre ++ mid :: post → post ≠ [] →
        hasErrorMarker mid.2 = false) ∧
    (∀ (pre post script : List (List Char × List Char)) (p : List Char × List Char),
        script = pre ++ p :: post → hasErrorMarker p.2 = true →
        (executeCommands true script).1.length ≤ pre.length + 1) ∧
    executeCommands true [("C1".toList, "DX ER".toList), ("C2".toList, "ROR".toList)] =
      ([("C1".toList, "DX ER".toList), ("C2".toList, "ROR".toList)], false) ∧
    containsPattern (("DX ER".toList ++ "ROR".toList).map Char.toUpper)
      ("DX ERROR".toList) = true :=
  ⟨executeCommands_leads, executeCommands_clean_before_last,
   executeCommands_truncates, by decide, by decide⟩

/-- C6 witness: the theorem applied to a concrete two-command script whose
first chunk carries "DX ERROR" shows at most one command is issued, and
applied to an all-clean script shows its non-final chunks are marker-free. -/
theorem executeCommands_early_stop_witness :
    (executeCommands true
        [("C1".toList, "DX ERROR".toList), ("C2".toList, "OK".toList)]).1.length ≤ 1 ∧
    hasErrorMarker ("OK".toList) = false := by
  constructor
  · exact executeCommands_early_stop.2.2.1 [] [("C2".toList, "OK".toList)]
      [("C1".toList, "DX ERROR".toList), ("C2".toList, "OK".toList)]
      ("C1".toList, "DX ERROR".toList) rfl (by decide)
  · exact executeCommands_early_stop.2.1
      [("C1".toList, "OK".toList), ("C2".toList, "X".toList)]
      [] [("C2".toList, "X".toList)] ("C1".toList, "OK".toList) (by decide) (by simp)

/-! ## Subscriber check per server
(src/subscriber_management/subscriber_checker.py, check_msisdn, and
src/run_subscriber_search.py, search_msisdn).

`MMLClient.connect` catches every exception internally and returns a boolean,
so a connect or authentication failure is the `connectOk = false` case.  The
body of `check_msisdn` after a successful connect runs under `try/finally`
with no `except` clause: the finally block disconnects, and any exception
raised while executing commands (for example a transport error during
`channel.send`) is re-raised to the caller.  Exceptions are modelled with
`Except`: an `Except.error` value is a raised Python exception.  The channel
is abstracted as a function from a command to the chunk its execution
returns. -/

def MML_CHECK_SUBSCRIBER (msisdn : List Char) : List (List Char) :=
  ["ZMVO:MSISDN=".toList ++ msisdn ++ "::;".toList]

/-- Embedding of `SubscriberChecker._format_outputs`. -/
def formatOutputs (outputs : List (List Char × List Char)) : List Char :=
  (outputs.map (fun item =>
    "\n>>> ".toList ++ item.1 ++ "\n".toList ++ item.2 ++ "\n".toList ++
      List.replicate 80 '-' ++ "\n".toList)).flatten

/-- Behavior of one server during one check: whether the connect phase
succeeds, and either the exception raised while executing commands or the
channel's reply to each command. -/
structure ServerBehavior where
  connectOk : Bool
  execOutcome : Except (List Char) (List Char → List Char)

/-- Embedding of `SubscriberChecker.check_msisdn`: an `Except.error` result
is an exception propagating out of the call. -/
def checkMsisdn (msisdn : List Char) (env : ServerBehavior) :
    Except (List Char) (Bool × List Char) :=
  if !env.connectOk then Except.ok (false, "Connection failed".toList)
  else
    match env.execOutcome with
    | .error e => .error e
    | .ok respond =>
      let commands := MML_CHECK_SUBSCRIBER msisdn
      let outputs := (executeCommands true (commands.map (fun c => (c, respond c)))).1
      let output_text := formatOutputs outputs
      .ok (analyzeOutput output_text, output_text)

/-- Embedding of the per-server loop of `search_msisdn`
(src/run_subscriber_search.py): servers are checked in order, the search
stops at the first found server, and there is no exception handler around
`checker.check_msisdn`, so an `Except.error` aborts the remaining servers. -/
def searchMsisdn (msisdn : List Char) : List ServerBehavior → Except (List Char) Bool
  | [] => .ok false
  | env :: rest =>
    match checkMsisdn msisdn env with
    | .error e => .error e
    | .ok (found, _) => if found then .ok true else searchMsisdn msisdn rest

/-- C7 counterexample: a first server whose connect succeeds but whose
command execution raises a transport error makes the whole search raise; the
second server — which alone would report the subscriber found — is never
examined, so an exception raised during a single server's check does
propagate out of that operation and aborts the remaining servers. -/
theorem searchMsisdn_exception_aborts :
    searchMsisdn ("123".toList)
        [⟨true, Except.error ("socket error".toList)⟩,
         ⟨true, Except.ok (fun _ => "SUBSCRIBER INFORMATION".toList)⟩] =
      Except.error ("socket error".toList) ∧
    searchMsisdn ("123".toList)
        [⟨true, Except.ok (fun _ => "SUBSCRIBER INFORMATION".toList)⟩] =
      Except.ok true := by
  constructor
  · rfl
  · rfl

/-- C7 as amended: a connect or authentication failure is caught inside
`connect()` and yields the per-server outcome `(False, "Connection failed")`,
and the overall search then continues with the next configured server; but an
exception raised after a successful connect, while executing the commands,
propagates out of `check_msisdn` and aborts the search over the remaining
servers. -/
theorem checkMsisdn_failure_handling (msisdn : List Char) (env : ServerBehavior)
    (rest : List ServerBehavior) :
    (env.connectOk = false →
      checkMsisdn msisdn env = Except.ok (false, "Connection failed".toList) ∧
      searchMsisdn msisdn (env :: rest) = searchMsisdn msisdn rest) ∧
    (∀ e : List Char, env.connectOk = true → env.execOutcome = Except.error e →
      searchMsisdn msisdn (env :: rest) = Except.error e) := by
  constructor
  · intro h
    have hck : checkMsisdn msisdn env = Except.ok (false, "Connection failed".toList) := by
      simp [checkMsisdn, h]
    refine ⟨hck, ?_⟩
    simp [searchMsisdn, hck]
  · intro e h1 h2
    have hck : checkMsisdn msisdn env = Except.error e := by
      simp [checkMsisdn, h1, h2]
    simp [searchMsisdn, hck]

/-- C7 witness: the amended theorem applied to a concrete failing-connect
server followed by no further servers. -/
theorem checkMsisdn_failure_handling_witness :
    checkMsisdn ("123".toList) ⟨false, Except.ok (fun _ => [])⟩ =
      Except.ok (false, "Connection failed".toList) ∧
    searchMsisdn ("123".toList) [⟨false, Except.ok (fun _ => [])⟩] =
      searchMsisdn ("123".toList) [] :=
  (checkMsisdn_failure_handling ("123".toList)
    ⟨false, Except.ok (fun _ => [])⟩ []).1 rfl

/-! ## Resource lifecycle of one check
(src/subscriber_management/mml_client.py, MMLClient.connect, and
src/subscriber_management/subscriber_checker.py, check_msisdn).

`connect()` runs three phases inside one `try/except`: `client.connect`
(opens the SSH connection), `invoke_shell` (opens the interactive channel),
and the initial banner drain.  The except clause only logs and returns False
— it closes nothing.  `check_msisdn` calls `disconnect()` (closing channel
and client) in a `finally` block, but only after `connect()` returned True;
when `connect()` returns False it returns immediately without any cleanup. -/

structure ConnSteps where
  sshConnectOk : Bool
  invokeShellOk : Bool
  bannerReadOk : Bool

structure ResourceState where
  connOpen : Bool
  chanOpen : Bool
deriving DecidableEq

/-- Embedding of `MMLClient.connect`: the boolean result plus which of the
two remote resources are open when it returns. -/
def connectClient (cs : ConnSteps) : Bool × ResourceState :=
  if !cs.sshConnectOk then (false, ⟨false, false⟩)
  else if !cs.invokeShellOk then (false, ⟨true, false⟩)
  else if !cs.bannerReadOk then (false, ⟨true, true⟩)
  else (true, ⟨true, true⟩)

/-- Embedding of `check_msisdn` tracking the resource state at return: the
early return on a failed connect performs no cleanup, while the try/finally
body always disconnects (closing both resources) whether it returns normally
or re-raises. -/
def checkMsisdnState (msisdn : List Char) (cs : ConnSteps)
    (execOutcome : Except (List Char) (List Char → List Char)) :
    Except (List Char) (Bool × List Char) × ResourceState :=
  if !(connectClient cs).1 then
    (Except.ok (false, "Connection failed".toList), (connectClient cs).2)
  else
    match execOutcome with
    | .error e => (.error e, ⟨false, false⟩)
    | .ok respond =>
      let commands := MML_CHECK_SUBSCRIBER msisdn
      let outputs := (executeCommands true (commands.map (fun c => (c, respond c)))).1
      let output_text := formatOutputs outputs
      (.ok (analyzeOutput output_text, output_text), ⟨false, false⟩)

/-- C8 counterexample: when `client.connect` succeeds but `invoke_shell`
raises, `connect()` returns False and `check_msisdn` returns without any
cleanup, leaving the SSH connection open — an exit path on which the
connection opened for the server is not closed before the operation
returns. -/
theorem checkMsisdnState_leaves_connection_open :
    (checkMsisdnState ("123".toList) ⟨true, false, true⟩
        (Except.ok (fun _ => []))).2.connOpen = true := by
  rfl

/-- C8 as amended: on every exit path on which `connect()` as a whole
succeeded — normal completion of the command/classification phase and an
exception raised while executing commands alike — the channel and the
connection are closed before `check_msisdn` returns, and when the initial
`client.connect` itself fails nothing was opened; but when a later setup step
inside `connect()` fails (such as `invoke_shell`), the operation returns with
the already-opened resources left open. -/
theorem checkMsisdnState_cleanup (msisdn : List Char) (cs : ConnSteps)
    (execOutcome : Except (List Char) (List Char → List Char)) :
    ((connectClient cs).1 = true →
      (checkMsisdnState msisdn cs execOutcome).2 = ⟨false, false⟩) ∧
    (cs.sshConnectOk = false →
      (checkMsisdnState msisdn cs execOutcome).2 = ⟨false, false⟩) := by
  obtain ⟨s1, s2, s3⟩ := cs
  cases s1 <;> cases s2 <;> cases s3 <;> cases execOutcome <;>
    constructor <;> intro h <;>
      first
        | rfl
        | simp [connectClient] at h

/-- C8 witness: the amended theorem applied to a fully successful connect
with an empty channel reply, and to a server whose initial connect fails. -/
theorem checkMsisdnState_cleanup_witness :
    (checkMsisdnState ("123".toList) ⟨true, true, true⟩
        (Except.ok (fun _ => []))).2 = ⟨false, false⟩ ∧
    (checkMsisdnState ("123".toList) ⟨false, true, true⟩
        (Except.ok (fun _ => []))).2 = ⟨false, false⟩ :=
  ⟨(checkMsisdnState_cleanup ("123".toList) ⟨true, true, true⟩
      (Except.ok (fun _ => []))).1 rfl,
   (checkMsisdnState_cleanup ("123".toList) ⟨false, true, true⟩
      (Except.ok (fun _ => []))).2 rfl⟩

/-! ## Phone call automation
(src/phone_automation/phone_call_automation.py, get_call_state and
answer_call).

A subprocess invocation is abstracted by its outcome: completion with an exit
code and captured standard output, a `subprocess.TimeoutExpired`, or any
other exception while running it. -/

inductive SubprocOutcome
  | completed (returncode : Int) (stdout : List Char)
  | timedOut
  | raised (msg : List Char)

/-- Python whitespace as stripped by `str.strip()`. -/
def isPySpace (c : Char) : Bool :=
  c = ' ' || c = '\t' || c = '\n' || c = '\r' || c = '\x0b' || c = '\x0c'

/-- Embedding of Python `str.strip()`. -/
def pyStrip (s : List Char) : List Char :=
  ((s.dropWhile isPySpace).reverse.dropWhile isPySpace).reverse

/-- Embedding of Python `str.split('\n')`. -/
def splitLines : List Char → List (List Char)
  | [] => [[]]
  | c :: rest =>
    if c = '\n' then [] :: splitLines rest
    else
      match splitLines rest with
      | [] => [[c]]
      | l :: ls => (c :: l) :: ls

/-- Embedding of one iteration of the parsing loop of `get_call_state`: on a
line containing `mCallState=`, the if/elif chain of substring tests returns a
state, and a line matching none of the tests falls through to the next
line. -/
def parseCallStateLine (line : List Char) : Option (List Char) :=
  if containsPattern line ("mCallState=".toList) then
    if containsPattern line ("=0".toList) ||
        containsPattern (line.map Char.toUpper) ("IDLE".toList) then
      some ("IDLE".toList)
    else if containsPattern line ("=1".toList) ||
        containsPattern (line.map Char.toUpper) ("RINGING".toList) then
      some ("RINGING".toList)
    else if containsPattern line ("=2".toList) ||
        containsPattern (line.map Char.toUpper) ("OFFHOOK".toList) then
      some ("OFFHOOK".toList)
    else none
  else none

/-- Result of the parsing loop over all lines, defaulting to IDLE when no
line produced a state. -/
def parseCallStateLines : List (List Char) → List Char
  | [] => "IDLE".toList
  | l :: rest =>
    match parseCallStateLine l with
    | some s => s
    | none => parseCallStateLines rest

/-- Embedding of `get_call_state`: UNKNOWN on a nonzero exit code, a timeout
or a failure to run the subprocess; otherwise the parse of the stripped
standard output. -/
def getCallState (res : SubprocOutcome) : List Char :=
  match res with
  | .completed rc stdout =>
    if rc = 0 then parseCallStateLines (splitLines (pyStrip stdout))
    else "UNKNOWN".toList
  | .timedOut => "UNKNOWN".toList
  | .raised _ => "UNKNOWN".toList

lemma parseCallStateLine_mem {line s : List Char}
    (h : parseCallStateLine line = some s) :
    s = "IDLE".toList ∨ s = "RINGING".toList ∨ s = "OFFHOOK".toList := by
  unfold parseCallStateLine at h
  split_ifs at h <;> simp_all

lemma parseCallStateLines_mem (ls : List (List Char)) :
    parseCallStateLines ls = "IDLE".toList ∨
    parseCallStateLines ls = "RINGING".toList ∨
    parseCallStateLines ls = "OFFHOOK".toList := by
  induction ls with
  | nil => exact Or.inl rfl
  | cons l rest ih =>
    rw [parseCallStateLines]
    cases h : parseCallStateLine l with
    | none => exact ih
    | some s => exact parseCallStateLine_mem h

lemma parseCallStateLines_default (ls : List (List Char))
    (h : ∀ l ∈ ls, containsPattern l ("mCallState=".toList) = false) :
    parseCallStateLines ls = "IDLE".toList := by
  induction ls with
  | nil => rfl
  | cons l rest ih =>
    have hl : containsPattern l ("mCallState=".toList) = false :=
      h l (List.mem_cons_self l rest)
    have hline : parseCallStateLine l = none := by
      unfold parseCallStateLine
      rw [hl]
      simp
    rw [parseCallStateLines, hline]
    exact ih (fun x hx => h x (List.mem_cons_of_mem l hx))

/-- C9 counterexample: on a successful state query whose dump reports the
value 10 for the marker field — a value that is none of the three enumerated
states and should, per the claim, fall back to IDLE — `get_call_state`
returns RINGING, because the check is the substring test `'=1' in line` and
"=1" occurs inside "=10". -/
theorem getCallState_substring_counterexample :
    getCallState (SubprocOutcome.completed 0 ("mCallState=10".toList)) =
      "RINGING".toList ∧
    getCallState (SubprocOutcome.completed 0 ("mCallState=10".toList)) ≠
      "IDLE".toList := by
  constructor
  · decide
  · decide

/-- C9 as amended: `get_call_state` always returns one of exactly the four
strings IDLE, RINGING, OFFHOOK, UNKNOWN; it returns UNKNOWN exactly when the
subprocess exits nonzero, times out, or fails to run; on a zero exit code it
returns IDLE when no line of the output contains the marker field, and maps a
line containing the marker through substring checks in order ('=0' or 'IDLE'
to IDLE, else '=1' or 'RINGING' to RINGING, else '=2' or 'OFFHOOK' to
OFFHOOK), so the ordinary values 0, 1, 2 map to the three states while an
out-of-range value such as 10 is caught by the first matching digit pattern
rather than falling back to IDLE. -/
theorem getCallState_behavior :
    (∀ res : SubprocOutcome,
        getCallState res = "IDLE".toList ∨ getCallState res = "RINGING".toList ∨
        getCallState res = "OFFHOOK".toList ∨ getCallState res = "UNKNOWN".toList) ∧
    (∀ (rc : Int) (out : List Char), rc ≠ 0 →
        getCallState (.completed rc out) = "UNKNOWN".toList) ∧
    getCallState SubprocOutcome.timedOut = "UNKNOWN".toList ∧
    (∀ msg : List Char, getCallState (.raised msg) = "UNKNOWN".toList) ∧
    (∀ out : List Char, getCallState (.completed 0 out) ≠ "UNKNOWN".toList) ∧
    (∀ out : List Char,
        (∀ l ∈ splitLines (pyStrip out),
          containsPattern l ("mCallState=".toList) = false) →
        getCallState (.completed 0 out) = "IDLE".toList) ∧
    getCallState (.completed 0 ("mCallState=0".toList)) = "IDLE".toList ∧
    getCallState (.completed 0 ("mCallState=1".toList)) = "RINGING".toList ∧
    getCallState (.completed 0 ("mCallState=2".toList)) = "OFFHOOK".toList := by
  refine ⟨?_, ?_, rfl, fun _ => rfl, ?_, ?_, by decide, by decide, by decide⟩
  · intro res
    cases res with
    | completed rc out =>
      by_cases hrc : rc = 0
      · subst hrc
        have h := parseCallStateLines_mem (splitLines (pyStrip out))
        simp only [getCallState, if_pos rfl]
        tauto
      · simp [getCallState, hrc]
    | timedOut => exact Or.inr (Or.inr (Or.inr rfl))
    | raised msg => exact Or.inr (Or.inr (Or.inr rfl))
  · intro rc out hrc
    simp [getCallState, hrc]
  · intro out
    have h := parseCallStateLines_mem (splitLines (pyStrip out))
    simp only [getCallState, if_pos rfl]
    rcases h with h | h | h <;> rw [h] <;> decide
  · intro out h
    simp only [getCallState, if_pos rfl]
    exact parseCallStateLines_default _ h

/-- C9 witness: the amended theorem applied to a nonzero exit code and to a
dump without the marker field. -/
theorem getCallState_behavior_witness :
    getCallState (SubprocOutcome.completed 1 []) = "UNKNOWN".toList ∧
    getCallState (SubprocOutcome.completed 0 ("no marker here".toList)) =
      "IDLE".toList :=
  ⟨getCallState_behavior.2.1 1 [] (by decide),
   getCallState_behavior.2.2.2.2.2.1 ("no marker here".toList) (by decide)⟩

/-- Embedding of `answer_call`: the first component is the returned boolean,
the second records whether the answer key-event subprocess was invoked.  The
prior call state is the value returned by the `get_call_state` query
performed at the top of the function. -/
def answerCall (call_state : List Char) (keyEvent : SubprocOutcome) :
    Bool × Bool :=
  if call_state ≠ "RINGING".toList then (false, false)
  else
    match keyEvent with
    | .completed rc _ => if rc = 0 then (true, true) else (false, true)
    | .timedOut => (false, true)
    | .raised _ => (false, true)

/-- C10: `answer_call` invokes the answer key-event subprocess exactly when
the preceding state query reported RINGING, and for every other prior state
it returns False without invoking the subprocess at all. -/
theorem answerCall_only_when_ringing (s : List Char) (r : SubprocOutcome) :
    ((answerCall s r).2 = true ↔ s = "RINGING".toList) ∧
    (s ≠ "RINGING".toList → answerCall s r = (false, false)) := by
  by_cases h : s = "RINGING".toList
  · subst h
    have hinv : (answerCall ("RINGING".toList) r).2 = true := by
      unfold answerCall
      rw [if_neg (by simp)]
      cases r with
      | completed rc out =>
        by_cases hrc : rc = 0 <;> simp [hrc]
      | timedOut => rfl
      | raised msg => rfl
    exact ⟨⟨fun _ => rfl, fun _ => hinv⟩, fun hc => absurd rfl hc⟩
  · have hres : answerCall s r = (false, false) := by
      unfold answerCall
      rw [if_pos h]
    refine ⟨⟨fun hinv => ?_, fun hs => absurd hs h⟩, fun _ => hres⟩
    rw [hres] at hinv
    exact absurd hinv (by decide)

/-- C10 witness: the theorem applied to the prior states IDLE (no invocation,
returns False) and RINGING with a successful key event. -/
theorem answerCall_only_when_ringing_witness :
    answerCall ("IDLE".toList) SubprocOutcome.timedOut = (false, false) ∧
    ((answerCall ("RINGING".toList) (SubprocOutcome.completed 0 [])).2 = true ↔
      "RINGING".toList = "RINGING".toList) :=
  ⟨(answerCall_only_when_ringing ("IDLE".toList) SubprocOutcome.timedOut).2 (by decide),
   (answerCall_only_when_ringing ("RINGING".toList) (SubprocOutcome.completed 0 [])).1⟩
